import Mathlib

/-!
Verification of the scoreboard persistence-and-ranking component of the
trivia-quiz application (`src/script.js`).

The JavaScript source is shallowly embedded: pure computations become Lean
functions, the browser's `localStorage` becomes an explicit `Storage` record
threaded through the storage functions, and the DOM side effects of
`displayScores` are abstracted into the `RenderedBoard` value it produces.
JavaScript numbers are modelled by `Nat`/`Int`/`ℚ` (all arithmetic the
component performs stays well inside the exactly-representable range of the
source's number type), and code that can throw returns `Option`.
-/

/-- A persisted score record, as built at `script.js` line 341:
`{ name: name, correct: correct, total: total, ts: Date.now() }`. -/
structure ScoreRecord where
  name : String
  correct : Nat
  total : Nat
  ts : Nat
deriving DecidableEq, Repr

/-- JSON values, the results of the platform's `JSON.parse`.  The component
only ever writes integer numerals, so numbers are modelled by `Int`. -/
inductive Json where
  | null : Json
  | bool : Bool → Json
  | num : Int → Json
  | str : String → Json
  | arr : List Json → Json
  | obj : List (String × Json) → Json
deriving Repr

/-- The `localStorage` keys the component uses (`scores`, `scoreSort`,
`triviaCurrentUser`); `none` models an absent key. -/
structure Storage where
  scores : Option String
  scoreSort : Option String
  triviaCurrentUser : Option String
deriving DecidableEq, Repr

/-- The score ratio used by the `highest`/`lowest` comparators
(`script.js` lines 370-371): `a.total ? a.correct / a.total : 0`. -/
def ratio (r : ScoreRecord) : ℚ :=
  if r.total = 0 then 0 else (r.correct : ℚ) / (r.total : ℚ)

/-- The integer percentage of a record (`script.js` lines 396 and 410):
`Math.round((s.total ? (s.correct / s.total) : 0) * 100)`.
`Math.round x` is `⌊x + 1/2⌋`, i.e. Mathlib's `round`. -/
def percent (r : ScoreRecord) : ℤ :=
  round (ratio r * 100)

/-- Comparator of the `newest` branch (`script.js` line 362):
`(b.ts || 0) - (a.ts || 0)`; on natural-number timestamps `ts || 0 = ts`. -/
def newestCmp (a b : ScoreRecord) : ℚ :=
  (b.ts : ℚ) - (a.ts : ℚ)

/-- Comparator of the `oldest` branch (`script.js` line 365). -/
def oldestCmp (a b : ScoreRecord) : ℚ :=
  (a.ts : ℚ) - (b.ts : ℚ)

/-- Comparator of the `highest` branch (`script.js` lines 368-376):
descending ratio, ties broken by descending timestamp. -/
def highestCmp (a b : ScoreRecord) : ℚ :=
  if ratio b ≠ ratio a then ratio b - ratio a else (b.ts : ℚ) - (a.ts : ℚ)

/-- Comparator of the `lowest` branch (`script.js` lines 379-385):
ascending ratio, ties broken by ascending timestamp. -/
def lowestCmp (a b : ScoreRecord) : ℚ :=
  if ratio a ≠ ratio b then ratio a - ratio b else (a.ts : ℚ) - (b.ts : ℚ)

/-- The ordering relation induced by a JavaScript sort comparator: `a` may
come before `b` exactly when the comparator does not require swapping,
i.e. `cmp a b ≤ 0`. -/
def jsSortLe (cmp : ScoreRecord → ScoreRecord → ℚ) (a b : ScoreRecord) : Prop :=
  cmp a b ≤ 0

instance (cmp : ScoreRecord → ScoreRecord → ℚ) : DecidableRel (jsSortLe cmp) :=
  fun a b => inferInstanceAs (Decidable (cmp a b ≤ 0))

/-- The sort applied by `displayScores` (`script.js` lines 359-386): one of
four comparator sorts selected by string comparison on the preference, and
no sort at all for any other preference string.  `Array.prototype.sort` is
modelled by a sort producing an ordering consistent with the comparator. -/
def displayOrder (pref : String) (scores : List ScoreRecord) : List ScoreRecord :=
  if pref = "newest" then scores.insertionSort (jsSortLe newestCmp)
  else if pref = "oldest" then scores.insertionSort (jsSortLe oldestCmp)
  else if pref = "highest" then scores.insertionSort (jsSortLe highestCmp)
  else if pref = "lowest" then scores.insertionSort (jsSortLe lowestCmp)
  else scores

/-- What one call of `displayScores` puts on the screen: the table rows in
order, the `topPercent` value (`null` when there are no scores), and the
`topCount` of rows flagged as top scorers. -/
structure RenderedBoard where
  rows : List ScoreRecord
  topPercent : Option ℤ
  topCount : Nat
deriving DecidableEq, Repr

/-- The scoreboard rendering of `displayScores` (`script.js` lines 349-450)
on a well-typed persisted sequence of records: sort per the preference
(lines 359-386), compute `topPercent` by the `reduce` over the (sorted)
array starting from `0` (lines 389-400), and count the rows whose percent
equals `topPercent` while rendering (lines 402-432). -/
def displayScores (pref : String) (scores : List ScoreRecord) : RenderedBoard :=
  let sorted := displayOrder pref scores
  let tp : Option ℤ :=
    if sorted.length > 0 then
      some (sorted.foldl (fun best s => if percent s > best then percent s else best) 0)
    else none
  let tc : Nat :=
    match tp with
    | none => 0
    | some m => sorted.countP (fun s => percent s == m)
  ⟨sorted, tp, tc⟩

/-- The function `getSortPreference` (`script.js` lines 295-300): the stored value, with
both an absent key and an empty string (falsy in `pref || "newest"`)
defaulting to `"newest"`. -/
def getSortPreference (st : Storage) : String :=
  match st.scoreSort with
  | none => "newest"
  | some p => if p = "" then "newest" else p

/-- The function `clearScores` (`script.js` lines 486-496): when the user confirms,
remove the `scores` key; otherwise leave storage untouched. -/
def clearScores (confirmed : Bool) (st : Storage) : Storage :=
  if confirmed then { st with scores := none } else st

/-! ### The platform JSON library

`script.js` persists scores with `JSON.stringify` (line 331) and reads them
back with `JSON.parse` (line 319).  These platform functions are modelled
below at the level of the serialized text: `sJson` produces the exact
character sequence `JSON.stringify` emits for the values the component
stores, and `parseJson` is a (fueled) recursive-descent reader of JSON
text restricted to integer numerals — the only numbers this application
ever writes. -/

/-- Decimal digit characters of `n`, most significant first (the numeral
`JSON.stringify` emits for a natural number). -/
def natChars (n : Nat) : List Char :=
  if _h : n < 10 then [Nat.digitChar n]
  else natChars (n / 10) ++ [Nat.digitChar (n % 10)]
decreasing_by exact Nat.div_lt_self (by omega) (by omega)

/-- The numeral `JSON.stringify` emits for an integer. -/
def intChars (n : Int) : List Char :=
  if n < 0 then '-' :: natChars n.natAbs else natChars n.toNat

/-- The escape sequence `JSON.stringify` emits for one character of a
string: `\"` and `\\`, the named control escapes `\b \t \n \f \r`, a
`\u00XX` escape for the remaining control characters, and every other
character verbatim. -/
def encChar (c : Char) : List Char :=
  if c = '"' then ['\\', '"']
  else if c = '\\' then ['\\', '\\']
  else if c = '\x08' then ['\\', 'b']
  else if c = '\t' then ['\\', 't']
  else if c = '\n' then ['\\', 'n']
  else if c = '\x0c' then ['\\', 'f']
  else if c = '\r' then ['\\', 'r']
  else if c.toNat < 0x20 then
    ['\\', 'u', '0', '0', Nat.digitChar (c.toNat / 16), Nat.digitChar (c.toNat % 16)]
  else [c]

/-- The body (between the quotes) of a `JSON.stringify`d string. -/
def encBody : List Char → List Char
  | [] => []
  | c :: cs => encChar c ++ encBody cs

/-- The full quoted form of a `JSON.stringify`d string. -/
def sStr (s : String) : List Char :=
  '"' :: encBody s.data ++ ['"']

mutual

/-- The character sequence `JSON.stringify` emits for a JSON value
(no whitespace, object fields in insertion order). -/
def sJson : Json → List Char
  | Json.null => ['n', 'u', 'l', 'l']
  | Json.bool true => ['t', 'r', 'u', 'e']
  | Json.bool false => ['f', 'a', 'l', 's', 'e']
  | Json.num n => intChars n
  | Json.str s => sStr s
  | Json.arr xs => '[' :: sElems xs ++ [']']
  | Json.obj fs => '\x7b' :: sFields fs ++ ['\x7d']

/-- Comma-separated serializations of array elements. -/
def sElems : List Json → List Char
  | [] => []
  | [x] => sJson x
  | x :: y :: xs => sJson x ++ ',' :: sElems (y :: xs)

/-- Comma-separated `"key":value` serializations of object fields. -/
def sFields : List (String × Json) → List Char
  | [] => []
  | [(k, v)] => sStr k ++ ':' :: sJson v
  | (k, v) :: f :: fs => sStr k ++ ':' :: sJson v ++ ',' :: sFields (f :: fs)

end

/-- The platform `JSON.stringify` as a string-valued function. -/
def stringifyJson (j : Json) : String :=
  ⟨sJson j⟩

/-- JSON insignificant whitespace. -/
def isJsonWs (c : Char) : Bool :=
  c = ' ' || c = '\t' || c = '\n' || c = '\r'

/-- Skip insignificant whitespace. -/
def skipWs (cs : List Char) : List Char :=
  cs.dropWhile isJsonWs

/-- Value of a hexadecimal digit character. -/
def hexVal (c : Char) : Option Nat :=
  if '0' ≤ c ∧ c ≤ '9' then some (c.toNat - 48)
  else if 'a' ≤ c ∧ c ≤ 'f' then some (c.toNat - 87)
  else if 'A' ≤ c ∧ c ≤ 'F' then some (c.toNat - 55)
  else none

/-- The character denoted by a single-letter JSON string escape. -/
def escChar (e : Char) : Option Char :=
  if e = '"' then some '"'
  else if e = '\\' then some '\\'
  else if e = '/' then some '/'
  else if e = 'b' then some '\x08'
  else if e = 'f' then some '\x0c'
  else if e = 'n' then some '\n'
  else if e = 'r' then some '\r'
  else if e = 't' then some '\t'
  else none

/-- Combine four hexadecimal digit characters into a code point. -/
def hex4 : List Char → Option Nat
  | [h1, h2, h3, h4] =>
    match hexVal h1, hexVal h2, hexVal h3, hexVal h4 with
    | some a, some b, some c, some d => some (((a * 16 + b) * 16 + c) * 16 + d)
    | _, _, _, _ => none
  | _ => none

/-- Read a JSON string body (the input starts just after the opening
quote); returns the decoded characters and the input after the closing
quote.  Unescaped control characters and invalid escapes are rejected,
as `JSON.parse` rejects them. -/
def parseStringBody : List Char → Option (List Char × List Char)
  | [] => none
  | c :: cs =>
    if c = '"' then some ([], cs)
    else if c = '\\' then
      match cs with
      | [] => none
      | e :: cs' =>
        if e = 'u' then
          if 4 ≤ cs'.length then
            match hex4 (cs'.take 4) with
            | some n =>
              if n < 0xd800 ∨ 0xe000 ≤ n then
                (parseStringBody (cs'.drop 4)).map (fun p => (Char.ofNat n :: p.1, p.2))
              else none
            | none => none
          else none
        else
          match escChar e with
          | some ec => (parseStringBody cs').map (fun p => (ec :: p.1, p.2))
          | none => none
    else if c.toNat < 0x20 then none
    else (parseStringBody cs).map (fun p => (c :: p.1, p.2))
termination_by cs => cs.length
decreasing_by all_goals (simp [List.length_drop]; try omega)

/-- Read a maximal run of decimal digits, as digit values. -/
def takeDigits : List Char → List Nat × List Char
  | [] => ([], [])
  | c :: cs =>
    if c.isDigit then
      let p := takeDigits cs
      ((c.toNat - 48) :: p.1, p.2)
    else ([], c :: cs)

/-- Numeric value of a big-endian digit-value list. -/
def digitsVal (ds : List Nat) : Nat :=
  ds.foldl (fun a d => a * 10 + d) 0

/-- Read a JSON integer numeral (optional minus sign, then digits). -/
def parseNumber (cs : List Char) : Option (Json × List Char) :=
  match cs with
  | [] => none
  | c :: cs' =>
    if c = '-' then
      let p := takeDigits cs'
      if p.1 = [] then none else some (Json.num (-(digitsVal p.1 : Int)), p.2)
    else
      let p := takeDigits (c :: cs')
      if p.1 = [] then none else some (Json.num (digitsVal p.1), p.2)

mutual

/-- Read one JSON value.  The `fuel` argument only bounds recursion depth;
`parseJson` supplies more fuel than any input can consume. -/
def pVal : Nat → List Char → Option (Json × List Char)
  | 0, _ => none
  | fuel + 1, cs =>
    match skipWs cs with
    | [] => none
    | c :: cs' =>
      if c = '\x7b' then pObj fuel cs'
      else if c = '[' then pArr fuel cs'
      else if c = '"' then
        (parseStringBody cs').map (fun p => (Json.str ⟨p.1⟩, p.2))
      else if c = 'n' then
        if cs'.take 3 = ['u', 'l', 'l'] then some (Json.null, cs'.drop 3) else none
      else if c = 't' then
        if cs'.take 3 = ['r', 'u', 'e'] then some (Json.bool true, cs'.drop 3) else none
      else if c = 'f' then
        if cs'.take 4 = ['a', 'l', 's', 'e'] then some (Json.bool false, cs'.drop 4) else none
      else parseNumber (c :: cs')

/-- Read the remainder of an array (the input starts just after `[`). -/
def pArr : Nat → List Char → Option (Json × List Char)
  | 0, _ => none
  | fuel + 1, cs =>
    match skipWs cs with
    | [] => none
    | c :: cs' =>
      if c = ']' then some (Json.arr [], cs')
      else
        match pVal fuel (c :: cs') with
        | none => none
        | some (v, r) =>
          match pArrRest fuel (skipWs r) with
          | none => none
          | some (vs, r') => some (Json.arr (v :: vs), r')

/-- Read `,`-separated further array elements up to the closing `]`. -/
def pArrRest : Nat → List Char → Option (List Json × List Char)
  | 0, _ => none
  | fuel + 1, cs =>
    match cs with
    | [] => none
    | c :: cs' =>
      if c = ']' then some ([], cs')
      else if c = ',' then
        match pVal fuel cs' with
        | none => none
        | some (v, r) =>
          match pArrRest fuel (skipWs r) with
          | none => none
          | some (vs, r') => some (v :: vs, r')
      else none

/-- Read one `"key":value` object member. -/
def pMember : Nat → List Char → Option ((String × Json) × List Char)
  | 0, _ => none
  | fuel + 1, cs =>
    match skipWs cs with
    | [] => none
    | c :: cs' =>
      if c = '"' then
        match parseStringBody cs' with
        | none => none
        | some (k, r) =>
          match skipWs r with
          | [] => none
          | c2 :: r2 =>
            if c2 = ':' then
              match pVal fuel r2 with
              | none => none
              | some (v, r'') => some ((⟨k⟩, v), r'')
            else none
      else none

/-- Read the remainder of an object (the input starts just after the
opening brace). -/
def pObj : Nat → List Char → Option (Json × List Char)
  | 0, _ => none
  | fuel + 1, cs =>
    match skipWs cs with
    | [] => none
    | c :: cs' =>
      if c = '\x7d' then some (Json.obj [], cs')
      else
        match pMember fuel (c :: cs') with
        | none => none
        | some (m, r) =>
          match pObjRest fuel (skipWs r) with
          | none => none
          | some (ms, r') => some (Json.obj (m :: ms), r')

/-- Read `,`-separated further object members up to the closing brace. -/
def pObjRest : Nat → List Char → Option (List (String × Json) × List Char)
  | 0, _ => none
  | fuel + 1, cs =>
    match cs with
    | [] => none
    | c :: cs' =>
      if c = '\x7d' then some ([], cs')
      else if c = ',' then
        match pMember fuel cs' with
        | none => none
        | some (m, r) =>
          match pObjRest fuel (skipWs r) with
          | none => none
          | some (ms, r') => some (m :: ms, r')
      else none

end

/-- The platform `JSON.parse`: read one JSON value and require only whitespace after
it.  The fuel `2 * length + 2` exceeds what any input can consume, since
every recursive step first consumes at least one input character. -/
def parseJson (s : String) : Option Json :=
  match pVal (2 * s.data.length + 2) s.data with
  | some (v, rest) => if skipWs rest = [] then some v else none
  | none => none

/-! ### Storage operations -/

/-- The JSON object for one score record, fields in the insertion order of
the object literal at `script.js` line 341. -/
def recordToJson (r : ScoreRecord) : Json :=
  Json.obj [("name", Json.str r.name), ("correct", Json.num r.correct),
            ("total", Json.num r.total), ("ts", Json.num r.ts)]

/-- The serialized text that remains after some array elements have been
consumed: either the closing bracket, or a comma and the next records. -/
def sElemsRest (L : List ScoreRecord) (rest : List Char) : List Char :=
  match L with
  | [] => ']' :: rest
  | r :: L' => ',' :: (sJson (recordToJson r) ++ sElemsRest L' rest)

/-- The function `getScoresFromStorage` (`script.js` lines 311-326): an absent (or
falsy, i.e. empty) stored value yields `[]`; otherwise `JSON.parse` the
text, and if that throws, catch and yield `[]`. -/
def getScoresFromStorage (st : Storage) : Json :=
  match st.scores with
  | none => Json.arr []
  | some raw =>
    if raw = "" then Json.arr []
    else
      match parseJson raw with
      | some v => v
      | none => Json.arr []

/-- The function `setScoresInStorage` (`script.js` lines 329-334): serialize the array
and overwrite the `scores` key. -/
def setScoresInStorage (st : Storage) (scoresArray : List Json) : Storage :=
  { st with scores := some (stringifyJson (Json.arr scoresArray)) }

/-- The function `saveScoreToStorage` (`script.js` lines 337-346): read the stored
list, push a record built from the arguments and the current time, and
write the list back.  If the stored value is not an array, `push` throws
a `TypeError`; that failure is modelled by `none`. -/
def saveScoreToStorage (name : String) (correct total now : Nat) (st : Storage) :
    Option Storage :=
  match getScoresFromStorage st with
  | Json.arr xs =>
    some (setScoresInStorage st (xs ++ [recordToJson ⟨name, correct, total, now⟩]))
  | _ => none

/-- Field lookup in a JSON object, as JavaScript property access on the
parsed value. -/
def jLookup (fs : List (String × Json)) (k : String) : Option Json :=
  (fs.find? (fun p => p.1 == k)).map (fun p => p.2)

/-- Read one `ScoreRecord` back out of a parsed JSON value, requiring
exactly the shape `saveScoreToStorage` persists. -/
def decodeRecord (j : Json) : Option ScoreRecord :=
  match j with
  | Json.obj fs =>
    match jLookup fs "name", jLookup fs "correct", jLookup fs "total", jLookup fs "ts" with
    | some (Json.str n), some (Json.num c), some (Json.num t), some (Json.num ts) =>
      if 0 ≤ c ∧ 0 ≤ t ∧ 0 ≤ ts then some ⟨n, c.toNat, t.toNat, ts.toNat⟩ else none
    | _, _, _, _ => none
  | _ => none

/-- Read a sequence of `ScoreRecord` out of parsed JSON array elements. -/
def decodeScoresList : List Json → Option (List ScoreRecord)
  | [] => some []
  | j :: js =>
    match decodeRecord j, decodeScoresList js with
    | some r, some rs => some (r :: rs)
    | _, _ => none

/-- Read a whole persisted sequence of `ScoreRecord` out of a parsed JSON
value. -/
def decodeScores (j : Json) : Option (List ScoreRecord) :=
  match j with
  | Json.arr xs => decodeScoresList xs
  | _ => none

/-! ### Form submission -/

/-- The state of the quiz form at submission time: for each rendered
question block, whether some radio is checked and whether the checked one
carries `data-correct="true"` (radio groups allow at most one checked
input per question), plus the raw username field. -/
structure Submission where
  answers : List (Option Bool)
  username : String

/-- The platform's `String.prototype.trim`: strip leading and trailing
whitespace (`(usernameInput.value || "").trim()`, `script.js` line 222). -/
def jsTrim (s : String) : String :=
  ⟨List.reverse (List.dropWhile Char.isWhitespace
    (List.reverse (List.dropWhile Char.isWhitespace s.data)))⟩

/-- The count `blocks.length` (`script.js` line 234). -/
def totalQuestions (sub : Submission) : Nat :=
  sub.answers.length

/-- The number of checked radios with `data-correct="true"`
(`script.js` lines 236-238). -/
def correctSelections (sub : Submission) : Nat :=
  sub.answers.countP (fun a => a == some true)

/-- The handler `handleFormSubmit` (`script.js` lines 179-292), restricted to its
effect on storage: abort (leaving storage untouched) when some question
has no selection or the trimmed username is empty, otherwise persist the
graded record via `saveScoreToStorage`.  `now` is `Date.now()` at the
time of submission. -/
def handleFormSubmit (sub : Submission) (now : Nat) (st : Storage) : Option Storage :=
  if sub.answers.any (fun a => a.isNone) then some st
  else if jsTrim sub.username = "" then some st
  else saveScoreToStorage (jsTrim sub.username) (correctSelections sub) (totalQuestions sub) now st

/-! ### Basic facts about the ranking component -/

theorem jsSortLe_newest_iff (a b : ScoreRecord) :
    jsSortLe newestCmp a b ↔ b.ts ≤ a.ts := by
  unfold jsSortLe newestCmp
  rw [sub_nonpos, Nat.cast_le]

theorem jsSortLe_oldest_iff (a b : ScoreRecord) :
    jsSortLe oldestCmp a b ↔ a.ts ≤ b.ts := by
  unfold jsSortLe oldestCmp
  rw [sub_nonpos, Nat.cast_le]

theorem jsSortLe_highest_iff (a b : ScoreRecord) :
    jsSortLe highestCmp a b ↔ ratio b < ratio a ∨ (ratio b = ratio a ∧ b.ts ≤ a.ts) := by
  unfold jsSortLe highestCmp
  by_cases h : ratio b = ratio a
  · rw [if_neg (fun hC => hC h)]
    simp [h, sub_nonpos, Nat.cast_le]
  · rw [if_pos h, sub_nonpos]
    simp [le_iff_lt_or_eq, h]

theorem jsSortLe_lowest_iff (a b : ScoreRecord) :
    jsSortLe lowestCmp a b ↔ ratio a < ratio b ∨ (ratio a = ratio b ∧ a.ts ≤ b.ts) := by
  unfold jsSortLe lowestCmp
  by_cases h : ratio a = ratio b
  · rw [if_neg (fun hC => hC h)]
    simp [h, sub_nonpos, Nat.cast_le]
  · rw [if_pos h, sub_nonpos]
    simp [le_iff_lt_or_eq, h]

instance : IsTotal ScoreRecord (jsSortLe newestCmp) :=
  ⟨fun a b => by rw [jsSortLe_newest_iff, jsSortLe_newest_iff]; omega⟩

instance : IsTrans ScoreRecord (jsSortLe newestCmp) :=
  ⟨fun a b c => by
    rw [jsSortLe_newest_iff, jsSortLe_newest_iff, jsSortLe_newest_iff]; omega⟩

instance : IsTotal ScoreRecord (jsSortLe oldestCmp) :=
  ⟨fun a b => by rw [jsSortLe_oldest_iff, jsSortLe_oldest_iff]; omega⟩

instance : IsTrans ScoreRecord (jsSortLe oldestCmp) :=
  ⟨fun a b c => by
    rw [jsSortLe_oldest_iff, jsSortLe_oldest_iff, jsSortLe_oldest_iff]; omega⟩

instance : IsTotal ScoreRecord (jsSortLe highestCmp) :=
  ⟨fun a b => by
    rw [jsSortLe_highest_iff, jsSortLe_highest_iff]
    rcases lt_trichotomy (ratio a) (ratio b) with h | h | h
    · exact Or.inr (Or.inl h)
    · rcases Nat.le_total b.ts a.ts with ht | ht
      · exact Or.inl (Or.inr ⟨h.symm, ht⟩)
      · exact Or.inr (Or.inr ⟨h, ht⟩)
    · exact Or.inl (Or.inl h)⟩

instance : IsTrans ScoreRecord (jsSortLe highestCmp) :=
  ⟨fun a b c hab hbc => by
    rw [jsSortLe_highest_iff] at hab hbc ⊢
    rcases hab with h1 | ⟨h1, t1⟩ <;> rcases hbc with h2 | ⟨h2, t2⟩
    · exact Or.inl (lt_trans h2 h1)
    · exact Or.inl (by rw [h2]; exact h1)
    · exact Or.inl (by rw [← h1]; exact h2)
    · exact Or.inr ⟨by rw [h2, h1], Nat.le_trans t2 t1⟩⟩

instance : IsTotal ScoreRecord (jsSortLe lowestCmp) :=
  ⟨fun a b => by
    rw [jsSortLe_lowest_iff, jsSortLe_lowest_iff]
    rcases lt_trichotomy (ratio a) (ratio b) with h | h | h
    · exact Or.inl (Or.inl h)
    · rcases Nat.le_total a.ts b.ts with ht | ht
      · exact Or.inl (Or.inr ⟨h, ht⟩)
      · exact Or.inr (Or.inr ⟨h.symm, ht⟩)
    · exact Or.inr (Or.inl h)⟩

instance : IsTrans ScoreRecord (jsSortLe lowestCmp) :=
  ⟨fun a b c hab hbc => by
    rw [jsSortLe_lowest_iff] at hab hbc ⊢
    rcases hab with h1 | ⟨h1, t1⟩ <;> rcases hbc with h2 | ⟨h2, t2⟩
    · exact Or.inl (lt_trans h1 h2)
    · exact Or.inl (by rw [← h2]; exact h1)
    · exact Or.inl (by rw [h1]; exact h2)
    · exact Or.inr ⟨by rw [h1, h2], Nat.le_trans t1 t2⟩⟩

/-- Whatever the preference string, the displayed order is a permutation
of the persisted sequence. -/
theorem displayOrder_perm (p : String) (X : List ScoreRecord) :
    List.Perm (displayOrder p X) X := by
  unfold displayOrder
  split_ifs <;> first | exact List.perm_insertionSort _ _ | exact List.Perm.refl _

/-- Percentages are never negative (`Math.round` of a nonnegative value). -/
theorem percent_nonneg (r : ScoreRecord) : 0 ≤ percent r := by
  have hr : (0 : ℚ) ≤ ratio r := by
    unfold ratio
    split
    · exact le_refl 0
    · positivity
  unfold percent
  rw [round_eq, Int.le_floor]
  push_cast
  linarith

/-! ### Claims about validation, clearing, preferences, and percent -/

/-- C4: a submission with an unanswered question or a whitespace-only
player name aborts before grading: no record is appended and storage is
returned unchanged. -/
theorem invalid_submission_leaves_storage_unchanged (sub : Submission) (now : Nat)
    (st : Storage)
    (h : (∃ a ∈ sub.answers, a = none) ∨ jsTrim sub.username = "") :
    handleFormSubmit sub now st = some st := by
  unfold handleFormSubmit
  rcases h with ⟨a, ha, rfl⟩ | h
  · have hany : sub.answers.any (fun a => a.isNone) = true :=
      List.any_eq_true.2 ⟨none, ha, rfl⟩
    rw [if_pos hany]
  · by_cases hany : sub.answers.any (fun a => a.isNone)
    · rw [if_pos hany]
    · rw [if_neg hany, if_pos h]

/-- Witness for C4: one unanswered question aborts the submission. -/
theorem invalid_submission_leaves_storage_unchanged_witness :
    handleFormSubmit ⟨[some true, none], "Ann"⟩ 7 ⟨none, none, none⟩ =
      some ⟨none, none, none⟩ :=
  invalid_submission_leaves_storage_unchanged ⟨[some true, none], "Ann"⟩ 7
    ⟨none, none, none⟩ (Or.inl ⟨none, by decide, rfl⟩)

/-- C5: a submission that passes validation persists exactly the record
`{name, correct, total, ts}` whose `correct` (checked radios marked
correct, at most one per question group) never exceeds `total` (the
number of question blocks). -/
theorem persisted_record_correct_le_total (sub : Submission) (now : Nat) (st : Storage)
    (hans : ∀ a ∈ sub.answers, a ≠ none) (hname : jsTrim sub.username ≠ "") :
    correctSelections sub ≤ totalQuestions sub ∧
    handleFormSubmit sub now st =
      saveScoreToStorage (jsTrim sub.username) (correctSelections sub) (totalQuestions sub)
        now st ∧
    ∀ xs, getScoresFromStorage st = Json.arr xs →
      handleFormSubmit sub now st = some (setScoresInStorage st (xs ++
        [recordToJson ⟨jsTrim sub.username, correctSelections sub, totalQuestions sub, now⟩])) := by
  have hany : sub.answers.any (fun a => a.isNone) = false := by
    simp only [List.any_eq_false]
    intro a ha
    simpa [Option.isNone_iff_eq_none] using hans a ha
  refine ⟨?_, ?_, ?_⟩
  · unfold correctSelections totalQuestions
    exact List.countP_le_length _
  · unfold handleFormSubmit
    rw [if_neg (by simp [hany]), if_neg hname]
  · intro xs hxs
    unfold handleFormSubmit
    rw [if_neg (by simp [hany]), if_neg hname]
    simp [saveScoreToStorage, hxs]

/-- Witness for C5: a concrete valid submission with one correct answer
out of two questions. -/
theorem persisted_record_correct_le_total_witness :
    correctSelections ⟨[some true, some false], " Dave "⟩ ≤
      totalQuestions ⟨[some true, some false], " Dave "⟩ ∧
    handleFormSubmit ⟨[some true, some false], " Dave "⟩ 5 ⟨none, none, none⟩ =
      saveScoreToStorage (jsTrim " Dave ") 1 2 5 ⟨none, none, none⟩ :=
  ⟨(persisted_record_correct_le_total ⟨[some true, some false], " Dave "⟩ 5
      ⟨none, none, none⟩ (by decide) (by decide)).1,
   (persisted_record_correct_le_total ⟨[some true, some false], " Dave "⟩ 5
      ⟨none, none, none⟩ (by decide) (by decide)).2.1⟩

/-- C6: the displayed percent is `Math.round (100 * correct / total)`,
with `total = 0` guarded to percent `0` (no division-by-zero fault); a
lone record with `correct = 0, total = 0` renders a top percent of `0`. -/
theorem percent_rounds_ratio_and_guards_zero_total (r : ScoreRecord) :
    (r.total ≠ 0 → percent r = round ((100 * r.correct : ℚ) / r.total)) ∧
    (r.total = 0 → percent r = 0) ∧
    (∀ pref name ts, (displayScores pref [⟨name, 0, 0, ts⟩]).topPercent = some 0) := by
  refine ⟨?_, ?_, ?_⟩
  · intro h
    unfold percent
    congr 1
    unfold ratio
    rw [if_neg h]
    ring
  · intro h
    simp [percent, ratio, h]
  · intro pref name ts
    have h1 : displayOrder pref [⟨name, 0, 0, ts⟩] = [⟨name, 0, 0, ts⟩] :=
      List.Perm.eq_singleton (displayOrder_perm pref [⟨name, 0, 0, ts⟩])
    simp [displayScores, h1, percent, ratio]

/-- Witness for C6: the zero-total guards at a concrete record. -/
theorem percent_rounds_ratio_and_guards_zero_total_witness :
    percent ⟨"E", 0, 0, 9⟩ = 0 ∧
    (displayScores "lowest" [⟨"E", 0, 0, 9⟩]).topPercent = some 0 :=
  ⟨(percent_rounds_ratio_and_guards_zero_total ⟨"E", 0, 0, 9⟩).2.1 rfl,
   (percent_rounds_ratio_and_guards_zero_total ⟨"E", 0, 0, 9⟩).2.2 "lowest" "E" 9⟩

/-- C8: for every preference string, the rendered rows are a permutation
of the persisted sequence; in particular their number equals its length. -/
theorem ranked_view_is_permutation (p : String) (X : List ScoreRecord) :
    List.Perm (displayScores p X).rows X ∧ (displayScores p X).rows.length = X.length := by
  have h := displayOrder_perm p X
  exact ⟨h, h.length_eq⟩

/-- C9: a confirmed clear removes all persisted score records — a
subsequent load yields the empty sequence — while the persisted sort
preference (and hence `getSortPreference`) is untouched. -/
theorem clear_removes_scores_preserves_preference (st : Storage) :
    getScoresFromStorage (clearScores true st) = Json.arr [] ∧
    (clearScores true st).scoreSort = st.scoreSort ∧
    getSortPreference (clearScores true st) = getSortPreference st :=
  ⟨rfl, rfl, rfl⟩

/-- C10: a stored non-empty preference string outside the four known
values is returned verbatim by `getSortPreference` (only an absent or
empty value defaults to `"newest"`), and `displayScores` then applies no
sort branch: the rows appear in exactly the persisted insertion order. -/
theorem unknown_preference_verbatim_and_unsorted (st : Storage) (p : String)
    (X : List ScoreRecord) (hp : st.scoreSort = some p) (hne : p ≠ "")
    (h1 : p ≠ "newest") (h2 : p ≠ "oldest") (h3 : p ≠ "highest") (h4 : p ≠ "lowest") :
    getSortPreference st = p ∧
    (displayScores (getSortPreference st) X).rows = X ∧
    getSortPreference ⟨st.scores, none, st.triviaCurrentUser⟩ = "newest" ∧
    getSortPreference ⟨st.scores, some "", st.triviaCurrentUser⟩ = "newest" := by
  have hgp : getSortPreference st = p := by
    simp [getSortPreference, hp, hne]
  refine ⟨hgp, ?_, rfl, rfl⟩
  show displayOrder (getSortPreference st) X = X
  rw [hgp]
  unfold displayOrder
  rw [if_neg h1, if_neg h2, if_neg h3, if_neg h4]

/-- Witness for C10: the unknown preference `"alpha"` is returned
verbatim and leaves the persisted order untouched. -/
theorem unknown_preference_verbatim_and_unsorted_witness :
    getSortPreference ⟨none, some "alpha", none⟩ = "alpha" ∧
    (displayScores (getSortPreference ⟨none, some "alpha", none⟩)
      [⟨"A", 1, 2, 3⟩, ⟨"B", 2, 2, 1⟩]).rows = [⟨"A", 1, 2, 3⟩, ⟨"B", 2, 2, 1⟩] :=
  ⟨(unknown_preference_verbatim_and_unsorted ⟨none, some "alpha", none⟩ "alpha"
      [⟨"A", 1, 2, 3⟩, ⟨"B", 2, 2, 1⟩] rfl (by decide) (by decide) (by decide)
      (by decide) (by decide)).1,
   (unknown_preference_verbatim_and_unsorted ⟨none, some "alpha", none⟩ "alpha"
      [⟨"A", 1, 2, 3⟩, ⟨"B", 2, 2, 1⟩] rfl (by decide) (by decide) (by decide)
      (by decide) (by decide)).2.1⟩

/-! ### C1: the four orderings -/

/-- C1: `displayScores` orders the rows per the chosen preference —
`newest`/`oldest` by descending/ascending timestamp, `highest`/`lowest`
by descending/ascending ratio with ties broken by descending/ascending
timestamp — and on the records `A:7/10, B:9/10, C:5/10` with `t1<t2<t3`,
preference `highest` yields the order `[B, A, C]`. -/
theorem display_order_matches_preference (X : List ScoreRecord) (t1 t2 t3 : Nat)
    (_h12 : t1 < t2) (_h23 : t2 < t3) :
    List.Sorted (fun a b => b.ts ≤ a.ts) (displayScores "newest" X).rows ∧
    List.Sorted (fun a b => a.ts ≤ b.ts) (displayScores "oldest" X).rows ∧
    List.Sorted (fun a b => ratio b < ratio a ∨ (ratio b = ratio a ∧ b.ts ≤ a.ts))
      (displayScores "highest" X).rows ∧
    List.Sorted (fun a b => ratio a < ratio b ∨ (ratio a = ratio b ∧ a.ts ≤ b.ts))
      (displayScores "lowest" X).rows ∧
    (displayScores "highest" [⟨"A", 7, 10, t1⟩, ⟨"B", 9, 10, t2⟩, ⟨"C", 5, 10, t3⟩]).rows =
      [⟨"B", 9, 10, t2⟩, ⟨"A", 7, 10, t1⟩, ⟨"C", 5, 10, t3⟩] := by
  refine ⟨?_, ?_, ?_, ?_, ?_⟩
  · have h : (displayScores "newest" X).rows = X.insertionSort (jsSortLe newestCmp) := by
      show displayOrder "newest" X = _
      unfold displayOrder
      rw [if_pos rfl]
    rw [h]
    exact (List.sorted_insertionSort _ X).imp (fun hab => (jsSortLe_newest_iff _ _).1 hab)
  · have h : (displayScores "oldest" X).rows = X.insertionSort (jsSortLe oldestCmp) := by
      show displayOrder "oldest" X = _
      unfold displayOrder
      rw [if_neg (by decide), if_pos rfl]
    rw [h]
    exact (List.sorted_insertionSort _ X).imp (fun hab => (jsSortLe_oldest_iff _ _).1 hab)
  · have h : (displayScores "highest" X).rows = X.insertionSort (jsSortLe highestCmp) := by
      show displayOrder "highest" X = _
      unfold displayOrder
      rw [if_neg (by decide), if_neg (by decide), if_pos rfl]
    rw [h]
    exact (List.sorted_insertionSort _ X).imp (fun hab => (jsSortLe_highest_iff _ _).1 hab)
  · have h : (displayScores "lowest" X).rows = X.insertionSort (jsSortLe lowestCmp) := by
      show displayOrder "lowest" X = _
      unfold displayOrder
      rw [if_neg (by decide), if_neg (by decide), if_neg (by decide), if_pos rfl]
    rw [h]
    exact (List.sorted_insertionSort _ X).imp (fun hab => (jsSortLe_lowest_iff _ _).1 hab)
  · have h : (displayScores "highest"
        [⟨"A", 7, 10, t1⟩, ⟨"B", 9, 10, t2⟩, ⟨"C", 5, 10, t3⟩]).rows =
        List.insertionSort (jsSortLe highestCmp)
          [⟨"A", 7, 10, t1⟩, ⟨"B", 9, 10, t2⟩, ⟨"C", 5, 10, t3⟩] := by
      show displayOrder "highest" _ = _
      unfold displayOrder
      rw [if_neg (by decide), if_neg (by decide), if_pos rfl]
    rw [h]
    have hBC : jsSortLe highestCmp ⟨"B", 9, 10, t2⟩ ⟨"C", 5, 10, t3⟩ := by
      rw [jsSortLe_highest_iff]
      left
      norm_num [ratio]
    have hAB : ¬ jsSortLe highestCmp ⟨"A", 7, 10, t1⟩ ⟨"B", 9, 10, t2⟩ := by
      rw [jsSortLe_highest_iff]
      rintro (hlt | ⟨heq, -⟩)
      · norm_num [ratio] at hlt
      · norm_num [ratio] at heq
    have hAC : jsSortLe highestCmp ⟨"A", 7, 10, t1⟩ ⟨"C", 5, 10, t3⟩ := by
      rw [jsSortLe_highest_iff]
      left
      norm_num [ratio]
    simp [List.insertionSort, List.orderedInsert, hBC, hAB, hAC]

/-- Witness for C1 at `t1, t2, t3 = 1, 2, 3`. -/
theorem display_order_matches_preference_witness :
    (displayScores "highest" [⟨"A", 7, 10, 1⟩, ⟨"B", 9, 10, 2⟩, ⟨"C", 5, 10, 3⟩]).rows =
      [⟨"B", 9, 10, 2⟩, ⟨"A", 7, 10, 1⟩, ⟨"C", 5, 10, 3⟩] :=
  (display_order_matches_preference [] 1 2 3 (by decide) (by decide)).2.2.2.2

/-! ### C2: the top-score summary is a sort-independent global maximum -/

theorem bestFold_eq_maxFold (rows : List ScoreRecord) (b : ℤ) :
    rows.foldl (fun best s => if percent s > best then percent s else best) b =
    rows.foldl (fun x s => max x (percent s)) b := by
  induction rows generalizing b with
  | nil => rfl
  | cons r rs ih =>
    simp only [List.foldl]
    rw [ih]
    congr 1
    rcases le_or_lt (percent r) b with h | h
    · rw [if_neg (not_lt.2 h), max_eq_left h]
    · rw [if_pos h, max_eq_right h.le]

theorem le_foldl_max (l : List ScoreRecord) (b : ℤ) :
    b ≤ l.foldl (fun x s => max x (percent s)) b ∧
    ∀ r ∈ l, percent r ≤ l.foldl (fun x s => max x (percent s)) b := by
  induction l generalizing b with
  | nil => simp
  | cons r rs ih =>
    refine ⟨?_, ?_⟩
    · exact le_trans (le_max_left b (percent r)) (ih (max b (percent r))).1
    · intro x hx
      rcases List.mem_cons.1 hx with rfl | hx'
      · exact le_trans (le_max_right b (percent x)) (ih (max b (percent x))).1
      · exact (ih (max b (percent r))).2 x hx'

theorem foldl_max_attained (l : List ScoreRecord) (b : ℤ) :
    l.foldl (fun x s => max x (percent s)) b = b ∨
    ∃ r ∈ l, l.foldl (fun x s => max x (percent s)) b = percent r := by
  induction l generalizing b with
  | nil => exact Or.inl rfl
  | cons r rs ih =>
    rcases ih (max b (percent r)) with h | ⟨x, hx, hxe⟩
    · rcases le_or_lt (percent r) b with hbp | hbp
      · left
        rw [List.foldl, h, max_eq_left hbp]
      · right
        exact ⟨r, List.mem_cons_self r rs, by rw [List.foldl, h, max_eq_right hbp.le]⟩
    · exact Or.inr ⟨x, List.mem_cons_of_mem r hx, hxe⟩

/-- The `topPercent`/`topCount` of the rendered board, for every
preference string, computed over the original persisted sequence. -/
theorem displayScores_top_eq (pr : String) (X : List ScoreRecord) (hne : X ≠ []) :
    (displayScores pr X).topPercent = some (X.foldl (fun x s => max x (percent s)) 0) ∧
    (displayScores pr X).topCount =
      X.countP (fun r => percent r == X.foldl (fun x s => max x (percent s)) 0) := by
  have hperm := displayOrder_perm pr X
  have hpos : 0 < (displayOrder pr X).length := by
    rw [hperm.length_eq]
    exact List.length_pos.2 hne
  have hfold : (displayOrder pr X).foldl
      (fun best s => if percent s > best then percent s else best) 0 =
      X.foldl (fun x s => max x (percent s)) 0 := by
    rw [bestFold_eq_maxFold]
    exact hperm.foldl_eq' (fun x _ y _ z => by rw [max_assoc, max_comm (percent x), max_assoc]) 0
  have htp : (displayScores pr X).topPercent =
      if 0 < (displayOrder pr X).length then
        some ((displayOrder pr X).foldl
          (fun best s => if percent s > best then percent s else best) 0)
      else none := rfl
  have htp' : (displayScores pr X).topPercent =
      some (X.foldl (fun x s => max x (percent s)) 0) := by
    rw [htp, if_pos hpos, hfold]
  refine ⟨htp', ?_⟩
  have htc : (displayScores pr X).topCount =
      match (displayScores pr X).topPercent with
      | none => 0
      | some m => (displayOrder pr X).countP (fun s => percent s == m) := rfl
  rw [htc, htp']
  exact hperm.countP_eq _

/-- C2: for every non-empty persisted sequence, `topPercent` is the global
maximum of `percent` over all records, `topCount` counts the records
attaining it, and both are the same for every pair of preference
strings. -/
theorem top_summary_is_global_max_and_sort_invariant (X : List ScoreRecord)
    (hne : X ≠ []) (p q : String) :
    ∃ M : ℤ, (displayScores p X).topPercent = some M ∧
      (∃ r ∈ X, percent r = M) ∧ (∀ r ∈ X, percent r ≤ M) ∧
      (displayScores p X).topCount = X.countP (fun r => percent r == M) ∧
      (displayScores q X).topPercent = (displayScores p X).topPercent ∧
      (displayScores q X).topCount = (displayScores p X).topCount := by
  obtain ⟨hp1, hp2⟩ := displayScores_top_eq p X hne
  obtain ⟨hq1, hq2⟩ := displayScores_top_eq q X hne
  refine ⟨X.foldl (fun x s => max x (percent s)) 0, hp1, ?_, (le_foldl_max X 0).2, hp2,
    by rw [hp1, hq1], by rw [hp2, hq2]⟩
  rcases foldl_max_attained X 0 with h | h
  · obtain ⟨r0, hr0⟩ := List.exists_mem_of_ne_nil X hne
    refine ⟨r0, hr0, le_antisymm ?_ ?_⟩
    · exact (le_foldl_max X 0).2 r0 hr0
    · rw [h]
      exact percent_nonneg r0
  · obtain ⟨r0, hr0, he⟩ := h
    exact ⟨r0, hr0, he.symm⟩

/-- Witness for C2 on two concrete records and two preferences. -/
theorem top_summary_is_global_max_and_sort_invariant_witness :
    ∃ M : ℤ, (displayScores "highest" [⟨"A", 7, 10, 1⟩, ⟨"B", 9, 10, 2⟩]).topPercent = some M ∧
      (∃ r ∈ [⟨"A", 7, 10, 1⟩, ⟨"B", 9, 10, 2⟩], percent r = M) ∧
      (∀ r ∈ ([⟨"A", 7, 10, 1⟩, ⟨"B", 9, 10, 2⟩] : List ScoreRecord), percent r ≤ M) ∧
      (displayScores "highest" [⟨"A", 7, 10, 1⟩, ⟨"B", 9, 10, 2⟩]).topCount =
        List.countP (fun r => percent r == M) [⟨"A", 7, 10, 1⟩, ⟨"B", 9, 10, 2⟩] ∧
      (displayScores "oldest" [⟨"A", 7, 10, 1⟩, ⟨"B", 9, 10, 2⟩]).topPercent =
        (displayScores "highest" [⟨"A", 7, 10, 1⟩, ⟨"B", 9, 10, 2⟩]).topPercent ∧
      (displayScores "oldest" [⟨"A", 7, 10, 1⟩, ⟨"B", 9, 10, 2⟩]).topCount =
        (displayScores "highest" [⟨"A", 7, 10, 1⟩, ⟨"B", 9, 10, 2⟩]).topCount :=
  top_summary_is_global_max_and_sort_invariant [⟨"A", 7, 10, 1⟩, ⟨"B", 9, 10, 2⟩]
    (by decide) "highest" "oldest"

/-! ### Round trip of the JSON model on what the component writes -/

theorem charOfNat_toNat {c : Char} (h : c.toNat < 0xd800) : Char.ofNat c.toNat = c := by
  have hv : (c.toNat).isValidChar := Or.inl h
  unfold Char.ofNat
  rw [dif_pos hv]
  unfold Char.ofNatAux
  apply Char.eq_of_val_eq
  show UInt32.mk _ = c.val
  conv_rhs => rw [← UInt32.mk_toBitVec_eq c.val]
  congr 1

theorem digitChar_facts : ∀ d, d < 10 →
    ((Nat.digitChar d).isDigit = true ∧ isJsonWs (Nat.digitChar d) = false ∧
     Nat.digitChar d ≠ '\x7b' ∧ Nat.digitChar d ≠ '[' ∧ Nat.digitChar d ≠ '"' ∧
     Nat.digitChar d ≠ 'n' ∧ Nat.digitChar d ≠ 't' ∧ Nat.digitChar d ≠ 'f' ∧
     Nat.digitChar d ≠ '-' ∧ (Nat.digitChar d).toNat - 48 = d) := by decide

theorem natChars_spec (n : Nat) :
    natChars n ≠ [] ∧ ∀ c ∈ natChars n, ∃ d, d < 10 ∧ c = Nat.digitChar d := by
  induction n using Nat.strong_induction_on with
  | _ n ih =>
    rw [natChars]
    split
    · rename_i h
      refine ⟨by simp, ?_⟩
      intro c hc
      rw [List.mem_singleton] at hc
      exact ⟨n, h, hc⟩
    · rename_i h
      have ihh := ih (n / 10) (Nat.div_lt_self (by omega) (by omega))
      refine ⟨by simp, ?_⟩
      intro c hc
      rw [List.mem_append] at hc
      rcases hc with hc | hc
      · exact ihh.2 c hc
      · rw [List.mem_singleton] at hc
        exact ⟨n % 10, Nat.mod_lt n (by omega), hc⟩

theorem takeDigits_append (ds rest : List Char)
    (hds : ∀ c ∈ ds, c.isDigit = true)
    (hrest : ∀ c, rest.head? = some c → c.isDigit = false) :
    takeDigits (ds ++ rest) = (ds.map (fun c => c.toNat - 48), rest) := by
  induction ds with
  | nil =>
    simp only [List.nil_append, List.map_nil]
    cases rest with
    | nil => rfl
    | cons c t =>
      have hc := hrest c rfl
      simp [takeDigits, hc]
  | cons c cs ih =>
    have hc := hds c (List.mem_cons_self c cs)
    have ih' := ih (fun x hx => hds x (List.mem_cons_of_mem c hx))
    simp [takeDigits, hc, ih']

theorem digitsVal_go (n : Nat) : ∀ a : Nat,
    List.foldl (fun x d => x * 10 + d) a ((natChars n).map (fun c => c.toNat - 48)) =
      a * 10 ^ (natChars n).length + n := by
  induction n using Nat.strong_induction_on with
  | _ n ih =>
    intro a
    rw [natChars]
    split
    · rename_i h
      simp [List.foldl, (digitChar_facts n h).2.2.2.2.2.2.2.2.2]
    · rename_i h
      rw [List.map_append, List.foldl_append,
        ih (n / 10) (Nat.div_lt_self (by omega) (by omega)) a]
      have hmod : (Nat.digitChar (n % 10)).toNat - 48 = n % 10 :=
        (digitChar_facts (n % 10) (Nat.mod_lt n (by omega))).2.2.2.2.2.2.2.2.2
      have hdm : n / 10 * 10 + n % 10 = n := by omega
      simp only [List.map_cons, List.map_nil, List.foldl_cons, List.foldl_nil, hmod,
        List.length_append, List.length_cons, List.length_nil]
      calc (a * 10 ^ (natChars (n / 10)).length + n / 10) * 10 + n % 10
          = a * (10 ^ (natChars (n / 10)).length * 10) + (n / 10 * 10 + n % 10) := by ring
        _ = a * 10 ^ ((natChars (n / 10)).length + (0 + 1)) + n := by
            rw [hdm, pow_succ]

theorem digitsVal_natChars (n : Nat) :
    digitsVal ((natChars n).map (fun c => c.toNat - 48)) = n := by
  unfold digitsVal
  rw [digitsVal_go n 0]
  simp

theorem hexVal_digitChar : ∀ d, d < 16 → hexVal (Nat.digitChar d) = some d := by decide

theorem parseNumber_natChars (n : Nat) (rest : List Char)
    (hrest : ∀ c, rest.head? = some c → c.isDigit = false) :
    parseNumber (natChars n ++ rest) = some (Json.num n, rest) := by
  obtain ⟨hne, hdig⟩ := natChars_spec n
  obtain ⟨c, cs', hc⟩ := List.exists_cons_of_ne_nil hne
  obtain ⟨d, hd, hcd⟩ := hdig c (hc ▸ List.mem_cons_self c cs')
  have hminus : c ≠ '-' := by
    rw [hcd]
    exact (digitChar_facts d hd).2.2.2.2.2.2.2.2.1
  have hall : ∀ x ∈ natChars n, x.isDigit = true := by
    intro x hx
    obtain ⟨d', hd', hxd⟩ := hdig x hx
    rw [hxd]
    exact (digitChar_facts d' hd').1
  have htd : takeDigits (natChars n ++ rest) =
      ((natChars n).map (fun ch => ch.toNat - 48), rest) :=
    takeDigits_append _ _ hall hrest
  have hdv : digitsVal ((natChars n).map (fun ch => ch.toNat - 48)) = n :=
    digitsVal_natChars n
  rw [hc] at htd hdv
  simp only [List.cons_append] at htd
  rw [hc, List.cons_append]
  simp only [parseNumber, if_neg hminus]
  simp [htd]
  simpa using hdv

theorem parseStringBody_enc (l rest : List Char) :
    parseStringBody (encBody l ++ '"' :: rest) = some (l, rest) := by
  induction l with
  | nil =>
    rw [show encBody [] ++ '"' :: rest = '"' :: rest from rfl, parseStringBody.eq_def]
    simp
  | cons c cs ih =>
    have hshape : encBody (c :: cs) ++ '"' :: rest =
        encChar c ++ (encBody cs ++ '"' :: rest) := by
      show (encChar c ++ encBody cs) ++ '"' :: rest = _
      rw [List.append_assoc]
    rw [hshape]
    unfold encChar
    split_ifs with h1 h2 h3 h4 h5 h6 h7 h8
    · subst h1; rw [parseStringBody.eq_def]; simp [escChar, ih]
    · subst h2; rw [parseStringBody.eq_def]; simp [escChar, ih]
    · subst h3; rw [parseStringBody.eq_def]; simp [escChar, ih]
    · subst h4; rw [parseStringBody.eq_def]; simp [escChar, ih]
    · subst h5; rw [parseStringBody.eq_def]; simp [escChar, ih]
    · subst h6; rw [parseStringBody.eq_def]; simp [escChar, ih]
    · subst h7; rw [parseStringBody.eq_def]; simp [escChar, ih]
    · have hhi : hexVal (Nat.digitChar (c.toNat / 16)) = some (c.toNat / 16) :=
        hexVal_digitChar _ (by omega)
      have hlo : hexVal (Nat.digitChar (c.toNat % 16)) = some (c.toNat % 16) :=
        hexVal_digitChar _ (Nat.mod_lt _ (by omega))
      have hcc : Char.ofNat c.toNat = c := charOfNat_toNat (by omega)
      have hn : c.toNat / 16 * 16 + c.toNat % 16 = c.toNat := by omega
      have hlt : c.toNat < 0xd800 ∨ 0xe000 ≤ c.toNat := Or.inl (by omega)
      rw [parseStringBody.eq_def]
      simp [hex4, hhi, hlo, ih, hn, hlt, hcc, show hexVal '0' = some 0 from rfl]
    · rw [parseStringBody.eq_def]; simp [h1, h2, h8, ih]

theorem skipWs_cons {c : Char} (t : List Char) (h : isJsonWs c = false) :
    skipWs (c :: t) = c :: t := by
  simp [skipWs, List.dropWhile, h]

theorem pVal_succ (f : Nat) (cs : List Char) :
    pVal (f + 1) cs =
      match skipWs cs with
      | [] => none
      | c :: cs' =>
        if c = '\x7b' then pObj f cs'
        else if c = '[' then pArr f cs'
        else if c = '"' then (parseStringBody cs').map (fun p => (Json.str ⟨p.1⟩, p.2))
        else if c = 'n' then
          if cs'.take 3 = ['u', 'l', 'l'] then some (Json.null, cs'.drop 3) else none
        else if c = 't' then
          if cs'.take 3 = ['r', 'u', 'e'] then some (Json.bool true, cs'.drop 3) else none
        else if c = 'f' then
          if cs'.take 4 = ['a', 'l', 's', 'e'] then some (Json.bool false, cs'.drop 4) else none
        else parseNumber (c :: cs') := rfl

theorem pArr_succ (f : Nat) (cs : List Char) :
    pArr (f + 1) cs =
      match skipWs cs with
      | [] => none
      | c :: cs' =>
        if c = ']' then some (Json.arr [], cs')
        else
          match pVal f (c :: cs') with
          | none => none
          | some (v, r) =>
            match pArrRest f (skipWs r) with
            | none => none
            | some (vs, r') => some (Json.arr (v :: vs), r') := rfl

theorem pArrRest_succ (f : Nat) (cs : List Char) :
    pArrRest (f + 1) cs =
      match cs with
      | [] => none
      | c :: cs' =>
        if c = ']' then some ([], cs')
        else if c = ',' then
          match pVal f cs' with
          | none => none
          | some (v, r) =>
            match pArrRest f (skipWs r) with
            | none => none
            | some (vs, r') => some (v :: vs, r')
        else none := rfl

theorem pMember_succ (f : Nat) (cs : List Char) :
    pMember (f + 1) cs =
      match skipWs cs with
      | [] => none
      | c :: cs' =>
        if c = '"' then
          match parseStringBody cs' with
          | none => none
          | some (k, r) =>
            match skipWs r with
            | [] => none
            | c2 :: r2 =>
              if c2 = ':' then
                match pVal f r2 with
                | none => none
                | some (v, r'') => some ((⟨k⟩, v), r'')
              else none
        else none := rfl

theorem pObj_succ (f : Nat) (cs : List Char) :
    pObj (f + 1) cs =
      match skipWs cs with
      | [] => none
      | c :: cs' =>
        if c = '\x7d' then some (Json.obj [], cs')
        else
          match pMember f (c :: cs') with
          | none => none
          | some (m, r) =>
            match pObjRest f (skipWs r) with
            | none => none
            | some (ms, r') => some (Json.obj (m :: ms), r') := rfl

theorem pObjRest_succ (f : Nat) (cs : List Char) :
    pObjRest (f + 1) cs =
      match cs with
      | [] => none
      | c :: cs' =>
        if c = '\x7d' then some ([], cs')
        else if c = ',' then
          match pMember f cs' with
          | none => none
          | some (m, r) =>
            match pObjRest f (skipWs r) with
            | none => none
            | some (ms, r') => some (m :: ms, r')
        else none := rfl

theorem pVal_sStr (f : Nat) (s : String) (rest : List Char) :
    pVal (f + 1) (sStr s ++ rest) = some (Json.str s, rest) := by
  have hshape : sStr s ++ rest = '"' :: (encBody s.data ++ '"' :: rest) := by
    show ('"' :: encBody s.data ++ ['"']) ++ rest = _
    simp
  rw [hshape, pVal_succ, skipWs_cons _ (by decide)]
  simp [parseStringBody_enc]

theorem pVal_natChars (f : Nat) (n : Nat) (rest : List Char)
    (hrest : ∀ c, rest.head? = some c → c.isDigit = false) :
    pVal (f + 1) (natChars n ++ rest) = some (Json.num n, rest) := by
  obtain ⟨hne, hdig⟩ := natChars_spec n
  obtain ⟨c, cs', hc⟩ := List.exists_cons_of_ne_nil hne
  obtain ⟨d, hd, hcd⟩ := hdig c (hc ▸ List.mem_cons_self c cs')
  have hfd := digitChar_facts d hd
  have hnw : isJsonWs c = false := by rw [hcd]; exact hfd.2.1
  have hc1 : ¬c = '\x7b' := by rw [hcd]; exact hfd.2.2.1
  have hc2 : ¬c = '[' := by rw [hcd]; exact hfd.2.2.2.1
  have hc3 : ¬c = '"' := by rw [hcd]; exact hfd.2.2.2.2.1
  have hc4 : ¬c = 'n' := by rw [hcd]; exact hfd.2.2.2.2.2.1
  have hc5 : ¬c = 't' := by rw [hcd]; exact hfd.2.2.2.2.2.2.1
  have hc6 : ¬c = 'f' := by rw [hcd]; exact hfd.2.2.2.2.2.2.2.1
  rw [hc, List.cons_append, pVal_succ, skipWs_cons _ hnw]
  simp only [if_neg hc1, if_neg hc2, if_neg hc3, if_neg hc4, if_neg hc5, if_neg hc6]
  rw [← List.cons_append, ← hc]
  exact parseNumber_natChars n rest hrest

theorem pMember_enc (f : Nat) (k : String) (venc : List Char) (v : Json) (rest : List Char)
    (hval : pVal f (venc ++ rest) = some (v, rest)) :
    pMember (f + 1) (sStr k ++ ':' :: (venc ++ rest)) = some ((k, v), rest) := by
  have hshape : sStr k ++ ':' :: (venc ++ rest) =
      '"' :: (encBody k.data ++ '"' :: (':' :: (venc ++ rest))) := by
    show ('"' :: encBody k.data ++ ['"']) ++ ':' :: (venc ++ rest) = _
    simp
  rw [hshape, pMember_succ, skipWs_cons _ (by decide)]
  simp only [if_pos rfl, parseStringBody_enc]
  rw [skipWs_cons _ (by decide)]
  simp [hval]

theorem intChars_natCast (n : Nat) : intChars (n : Int) = natChars n := by
  unfold intChars
  rw [if_neg (by omega), Int.toNat_natCast]

theorem head_not_digit_cons (c0 : Char) (h : c0.isDigit = false) (t : List Char) :
    ∀ c, ((c0 :: t).head? = some c) → c.isDigit = false := by
  intro c hc
  simp only [List.head?_cons, Option.some.injEq] at hc
  rw [← hc]
  exact h

theorem sStr_cons (k : String) (X : List Char) :
    sStr k ++ X = '"' :: (encBody k.data ++ '"' :: X) := by
  show ('"' :: encBody k.data ++ ['"']) ++ X = _
  simp

theorem sRecord_shape (r : ScoreRecord) (rest : List Char) :
    sJson (recordToJson r) ++ rest =
      '\x7b' :: (sStr "name" ++ ':' :: (sStr r.name ++ ',' ::
        (sStr "correct" ++ ':' :: (natChars r.correct ++ ',' ::
          (sStr "total" ++ ':' :: (natChars r.total ++ ',' ::
            (sStr "ts" ++ ':' :: (natChars r.ts ++ '\x7d' :: rest)))))))) := by
  simp [recordToJson, sJson, sFields, intChars_natCast]

theorem pObj_start (f : Nat) (k : String) (venc : List Char) (v : Json) (rest : List Char)
    (hval : pVal f (venc ++ rest) = some (v, rest)) :
    pObj (f + 2) (sStr k ++ ':' :: (venc ++ rest)) =
      match pObjRest (f + 1) (skipWs rest) with
      | none => none
      | some (ms, r') => some (Json.obj ((k, v) :: ms), r') := by
  rw [show f + 2 = (f + 1) + 1 from rfl, pObj_succ, sStr_cons, skipWs_cons _ (by decide)]
  simp only [if_neg (by decide : ¬('"' : Char) = '\x7d')]
  rw [← sStr_cons]
  simp only [pMember_enc f k venc v rest hval]

theorem pObjRest_step (f : Nat) (k : String) (venc : List Char) (v : Json) (rest : List Char)
    (hval : pVal f (venc ++ rest) = some (v, rest)) :
    pObjRest (f + 2) (',' :: (sStr k ++ ':' :: (venc ++ rest))) =
      match pObjRest (f + 1) (skipWs rest) with
      | none => none
      | some (ms, r') => some ((k, v) :: ms, r') := by
  rw [show f + 2 = (f + 1) + 1 from rfl, pObjRest_succ]
  simp only [if_neg (by decide : ¬(',' : Char) = '\x7d'), if_pos rfl,
    pMember_enc f k venc v rest hval]
  rw [if_pos trivial]

theorem pObjRest_close (f : Nat) (rest : List Char) :
    pObjRest (f + 1) ('\x7d' :: rest) = some ([], rest) := by
  rw [pObjRest_succ]
  simp

theorem pVal_record (g : Nat) (r : ScoreRecord) (rest : List Char) :
    pVal (g + 8) (sJson (recordToJson r) ++ rest) = some (recordToJson r, rest) := by
  have hcomma : (',' : Char).isDigit = false := by decide
  have hrb : ('\x7d' : Char).isDigit = false := by decide
  rw [sRecord_shape]
  set E4 : List Char := '\x7d' :: rest with hE4
  set E3 : List Char := ',' :: (sStr "ts" ++ ':' :: (natChars r.ts ++ E4)) with hE3
  set E2 : List Char := ',' :: (sStr "total" ++ ':' :: (natChars r.total ++ E3)) with hE2
  set E1 : List Char := ',' :: (sStr "correct" ++ ':' :: (natChars r.correct ++ E2)) with hE1
  have hv1 : pVal (g + 5) (sStr r.name ++ E1) = some (Json.str r.name, E1) := by
    rw [show g + 5 = (g + 4) + 1 from rfl]
    exact pVal_sStr (g + 4) r.name E1
  have hv2 : pVal (g + 4) (natChars r.correct ++ E2) = some (Json.num r.correct, E2) := by
    rw [show g + 4 = (g + 3) + 1 from rfl]
    exact pVal_natChars (g + 3) r.correct E2 (hE2 ▸ head_not_digit_cons ',' hcomma _)
  have hv3 : pVal (g + 3) (natChars r.total ++ E3) = some (Json.num r.total, E3) := by
    rw [show g + 3 = (g + 2) + 1 from rfl]
    exact pVal_natChars (g + 2) r.total E3 (hE3 ▸ head_not_digit_cons ',' hcomma _)
  have hv4 : pVal (g + 2) (natChars r.ts ++ E4) = some (Json.num r.ts, E4) := by
    rw [show g + 2 = (g + 1) + 1 from rfl]
    exact pVal_natChars (g + 1) r.ts E4 (hE4 ▸ head_not_digit_cons '\x7d' hrb _)
  rw [show g + 8 = (g + 7) + 1 from rfl, pVal_succ, skipWs_cons _ (by decide)]
  simp only [if_pos rfl]
  rw [show g + 7 = (g + 5) + 2 from rfl, pObj_start (g + 5) "name" (sStr r.name)
    (Json.str r.name) E1 hv1]
  rw [hE1, skipWs_cons _ (by decide), ← hE1]
  conv_lhs => rw [hE1]
  rw [show (g + 5) + 1 = (g + 4) + 2 from rfl,
    pObjRest_step (g + 4) "correct" (natChars r.correct) (Json.num r.correct) E2 hv2]
  rw [hE2, skipWs_cons _ (by decide), ← hE2]
  conv_lhs => rw [hE2]
  rw [show (g + 4) + 1 = (g + 3) + 2 from rfl,
    pObjRest_step (g + 3) "total" (natChars r.total) (Json.num r.total) E3 hv3]
  rw [hE3, skipWs_cons _ (by decide), ← hE3]
  conv_lhs => rw [hE3]
  rw [show (g + 3) + 1 = (g + 2) + 2 from rfl,
    pObjRest_step (g + 2) "ts" (natChars r.ts) (Json.num r.ts) E4 hv4]
  rw [hE4, skipWs_cons _ (by decide), ← hE4]
  conv_lhs => rw [hE4]
  rw [pObjRest_close (g + 2) rest]
  simp [recordToJson]

theorem sElemsRest_skipWs (L : List ScoreRecord) (rest : List Char) :
    skipWs (sElemsRest L rest) = sElemsRest L rest := by
  cases L with
  | nil => exact skipWs_cons _ (by decide)
  | cons r L' => exact skipWs_cons _ (by decide)

theorem sElems_shape (L' : List ScoreRecord) (r : ScoreRecord) (rest : List Char) :
    sElems ((r :: L').map recordToJson) ++ ']' :: rest =
      sJson (recordToJson r) ++ sElemsRest L' rest := by
  induction L' generalizing r with
  | nil => simp [sElems, sElemsRest]
  | cons y t ih =>
    show sElems (recordToJson r :: recordToJson y :: t.map recordToJson) ++ ']' :: rest = _
    rw [sElems, sElemsRest, List.append_assoc, List.cons_append, ← ih y]
    rfl

theorem pArrRest_records (L : List ScoreRecord) : ∀ (g : Nat) (rest : List Char),
    pArrRest (9 * L.length + (g + 1)) (sElemsRest L rest) =
      some (L.map recordToJson, rest) := by
  induction L with
  | nil =>
    intro g rest
    rw [show 9 * ([] : List ScoreRecord).length + (g + 1) = g + 1 by simp]
    rw [show sElemsRest [] rest = ']' :: rest from rfl, pArrRest_succ]
    simp
  | cons r L' ih =>
    intro g rest
    rw [show sElemsRest (r :: L') rest =
      ',' :: (sJson (recordToJson r) ++ sElemsRest L' rest) from rfl]
    rw [show 9 * (r :: L').length + (g + 1) = (9 * L'.length + g + 9) + 1 by
      rw [List.length_cons]; omega]
    rw [pArrRest_succ]
    simp only [if_neg (by decide : ¬(',' : Char) = ']'), if_pos rfl, if_true]
    rw [show 9 * L'.length + g + 9 = (9 * L'.length + g + 1) + 8 by omega,
      pVal_record (9 * L'.length + g + 1) r (sElemsRest L' rest)]
    show (match pArrRest ((9 * L'.length + g + 1) + 8) (skipWs (sElemsRest L' rest)) with
      | none => none
      | some (vs, r') => some (recordToJson r :: vs, r')) =
      some (List.map recordToJson (r :: L'), rest)
    rw [sElemsRest_skipWs,
      show (9 * L'.length + g + 1) + 8 = 9 * L'.length + ((g + 8) + 1) by omega,
      ih (g + 8) rest]
    rfl

theorem pVal_scoresArr (g : Nat) (L : List ScoreRecord) (rest : List Char) :
    pVal (9 * L.length + g + 2) (sJson (Json.arr (L.map recordToJson)) ++ rest) =
      some (Json.arr (L.map recordToJson), rest) := by
  have hshape : sJson (Json.arr (L.map recordToJson)) ++ rest =
      '[' :: (sElems (L.map recordToJson) ++ ']' :: rest) := by
    show ('[' :: sElems (L.map recordToJson) ++ [']']) ++ rest = _
    simp
  rw [hshape]
  rw [show 9 * L.length + g + 2 = (9 * L.length + g + 1) + 1 by omega, pVal_succ,
    skipWs_cons _ (by decide)]
  simp only [if_neg (by decide : ¬('[' : Char) = '\x7b'), if_pos rfl, if_true]
  cases L with
  | nil =>
    rw [show 9 * ([] : List ScoreRecord).length + g + 1 = g + 1 by simp]
    rw [show sElems (([] : List ScoreRecord).map recordToJson) ++ ']' :: rest =
      ']' :: rest from rfl]
    rw [pArr_succ, skipWs_cons _ (by decide)]
    simp
  | cons r L' =>
    rw [sElems_shape L' r rest]
    rw [show 9 * (r :: L').length + g + 1 = ((9 * L'.length + g + 1) + 8) + 1 by
      rw [List.length_cons]; omega]
    rw [pArr_succ]
    obtain ⟨t, ht⟩ : ∃ t, sJson (recordToJson r) ++ sElemsRest L' rest = '\x7b' :: t :=
      ⟨_, by rw [sRecord_shape]⟩
    rw [ht, skipWs_cons _ (by decide)]
    simp only [if_neg (by decide : ¬('\x7b' : Char) = ']')]
    rw [← ht, pVal_record (9 * L'.length + g + 1) r (sElemsRest L' rest)]
    show (match pArrRest ((9 * L'.length + g + 1) + 8) (skipWs (sElemsRest L' rest)) with
      | none => none
      | some (vs, r') => some (Json.arr (recordToJson r :: vs), r')) =
      some (Json.arr (List.map recordToJson (r :: L')), rest)
    rw [sElemsRest_skipWs,
      show (9 * L'.length + g + 1) + 8 = 9 * L'.length + ((g + 8) + 1) by omega,
      pArrRest_records L' (g + 8) rest]
    rfl

theorem sRecord_length (r : ScoreRecord) : 5 ≤ (sJson (recordToJson r)).length := by
  have h := sRecord_shape r []
  rw [List.append_nil] at h
  rw [h]
  simp [List.length_append]
  omega

theorem sElemsRest_length (L : List ScoreRecord) (rest : List Char) :
    6 * L.length + 1 ≤ (sElemsRest L rest).length := by
  induction L with
  | nil => simp [sElemsRest]
  | cons r L' ih =>
    have hr := sRecord_length r
    rw [show sElemsRest (r :: L') rest =
      ',' :: (sJson (recordToJson r) ++ sElemsRest L' rest) from rfl]
    simp only [List.length_cons, List.length_append, List.length_cons]
    omega

theorem sArr_length (L : List ScoreRecord) :
    6 * L.length + 1 ≤ (sJson (Json.arr (L.map recordToJson))).length := by
  have hshape : sJson (Json.arr (L.map recordToJson)) =
      '[' :: (sElems (L.map recordToJson) ++ ']' :: []) := by
    show '[' :: sElems (L.map recordToJson) ++ [']'] = _
    simp
  rw [hshape]
  cases L with
  | nil => simp
  | cons r L' =>
    have h := sElems_shape L' r []
    have hr := sRecord_length r
    have he := sElemsRest_length L' []
    have hlen : (sElems ((r :: L').map recordToJson)).length + 1 =
        (sJson (recordToJson r)).length + (sElemsRest L' []).length := by
      have := congrArg List.length h
      simpa [List.length_append] using this
    simp only [List.length_cons, List.length_append, List.length_nil]
    omega

theorem parseJson_stringify_scores (L : List ScoreRecord) :
    parseJson (stringifyJson (Json.arr (L.map recordToJson))) =
      some (Json.arr (L.map recordToJson)) := by
  have hlen := sArr_length L
  obtain ⟨g, hg⟩ : ∃ g, 2 * (sJson (Json.arr (L.map recordToJson))).length + 2 =
      9 * L.length + g + 2 :=
    ⟨2 * (sJson (Json.arr (L.map recordToJson))).length - 9 * L.length, by omega⟩
  show (match pVal (2 * (sJson (Json.arr (L.map recordToJson))).length + 2)
      (sJson (Json.arr (L.map recordToJson))) with
    | some (v, rest) => if skipWs rest = [] then some v else none
    | none => none) = some (Json.arr (L.map recordToJson))
  rw [hg, ← List.append_nil (sJson (Json.arr (L.map recordToJson)))]
  conv_lhs => rw [pVal_scoresArr g L []]
  rfl

theorem decodeRecord_recordToJson (r : ScoreRecord) : decodeRecord (recordToJson r) = some r := by
  unfold decodeRecord recordToJson jLookup
  simp [List.find?, Int.toNat_natCast, Int.natCast_nonneg]

theorem decodeScoresList_encode (X : List ScoreRecord) :
    decodeScoresList (X.map recordToJson) = some X := by
  induction X with
  | nil => rfl
  | cons r t ih => simp [decodeScoresList, decodeRecord_recordToJson r, ih]

/-- C7: saving a well-formed sequence of records with `setScoresInStorage`
and loading with `getScoresFromStorage` yields exactly the saved sequence
(the parsed value is the serialized array, and decoding it recovers `X`). -/
theorem load_after_save_roundtrip (st : Storage) (X : List ScoreRecord) :
    getScoresFromStorage (setScoresInStorage st (X.map recordToJson)) =
      Json.arr (X.map recordToJson) ∧
    decodeScores (getScoresFromStorage (setScoresInStorage st (X.map recordToJson))) =
      some X := by
  have hdata : (stringifyJson (Json.arr (X.map recordToJson))).data =
      '[' :: (sElems (X.map recordToJson) ++ [']']) := rfl
  have hne : stringifyJson (Json.arr (X.map recordToJson)) ≠ "" := by
    intro h
    have := congrArg String.data h
    rw [hdata] at this
    exact List.noConfusion this
  have hload : getScoresFromStorage (setScoresInStorage st (X.map recordToJson)) =
      Json.arr (X.map recordToJson) := by
    unfold getScoresFromStorage setScoresInStorage
    simp only [if_neg hne, parseJson_stringify_scores X]
  refine ⟨hload, ?_⟩
  rw [hload]
  show decodeScoresList (X.map recordToJson) = some X
  exact decodeScoresList_encode X

/-- C3 counterexample: the persisted value `"42"` is not valid serialized
`ScoreRecord` data, yet `getScoresFromStorage` does not return the empty
sequence — it returns the parsed number `42` (only a value `JSON.parse`
throws on is replaced by `[]`). -/
theorem load_corrupt_value_counterexample :
    getScoresFromStorage ⟨some "42", none, none⟩ = Json.num 42 ∧
    decodeScores (getScoresFromStorage ⟨some "42", none, none⟩) = none ∧
    getScoresFromStorage ⟨some "42", none, none⟩ ≠ Json.arr [] := by
  refine ⟨rfl, rfl, ?_⟩
  intro h
  rw [show getScoresFromStorage ⟨some "42", none, none⟩ = Json.num 42 from rfl] at h
  exact Json.noConfusion h

/-- C3 as amended: `getScoresFromStorage` fails closed exactly on values
`JSON.parse` rejects (and on an absent or empty value): those yield the
empty sequence and no exception; a persisted value that parses as JSON
but is not ScoreRecord data is returned as parsed. -/
theorem load_fails_closed_only_on_unparseable (st : Storage) (raw : String)
    (hs : st.scores = some raw) (hp : parseJson raw = none) :
    getScoresFromStorage st = Json.arr [] ∧
    getScoresFromStorage ⟨none, st.scoreSort, st.triviaCurrentUser⟩ = Json.arr [] := by
  refine ⟨?_, rfl⟩
  unfold getScoresFromStorage
  rw [hs]
  by_cases he : raw = ""
  · simp [he]
  · simp [he, hp]

/-- Witness for the amended C3 at the unparseable value `"{"`. -/
theorem load_fails_closed_only_on_unparseable_witness :
    getScoresFromStorage ⟨some "\x7b", none, none⟩ = Json.arr [] ∧
    getScoresFromStorage ⟨none, none, none⟩ = Json.arr [] :=
  load_fails_closed_only_on_unparseable ⟨some "\x7b", none, none⟩ "\x7b" rfl rfl
